import Mathlib

/-!
Verification development for the schema-normalization engine of the
apparel-catalog proxy repository.  The JavaScript sources embedded here are
`api/sanmar.js` (tree walker, product locator, field mapper, deduplicator)
and the unified cross-vendor normalizer `normalizeProduct`.

Decoded XML/JSON trees are modelled by the inductive type `JsVal`;
JavaScript numbers are modelled by rationals (`ℚ`), with a separate
constructor `vNaN` for the non-finite number value, so that the
`Number.isFinite` test of the source's `nnum` is the test for a `some`
result of the embedded conversion.
-/

/-- Model of a decoded JavaScript value (the `RawNode` trees produced by
`fast-xml-parser` / JSON): null, booleans, finite numbers, the NaN value,
strings, arrays and plain objects (ordered key/value lists). -/
inductive JsVal where
  | vNull : JsVal
  | vBool : Bool → JsVal
  | vNum : ℚ → JsVal
  | vNaN : JsVal
  | vStr : String → JsVal
  | arr : List JsVal → JsVal
  | obj : List (String × JsVal) → JsVal

/-- JavaScript truthiness: `null`, `false`, `0`, `NaN` and `""` are falsy;
objects and arrays are always truthy. -/
def truthy : JsVal → Bool
  | .vNull => false
  | .vBool b => b
  | .vNum q => !(q == 0)
  | .vNaN => false
  | .vStr s => !(s == "")
  | .arr _ => true
  | .obj _ => true

/-- Property access `p.k`: a `some` result for an object field that is
present, `none` for an absent field (JavaScript `undefined`) and for
non-object receivers. -/
def getField : JsVal → String → Option JsVal
  | .obj fs, k => (fs.find? (fun kv => kv.fst == k)).map Prod.snd
  | _, _ => none

/-- Test for an array value (`Array.isArray`). -/
def isArrB : JsVal → Bool
  | .arr _ => true
  | _ => false

/-- Test for an object value (a mapping). -/
def isObjB : JsVal → Bool
  | .obj _ => true
  | _ => false

/-- Test for `node && typeof node === 'object'`: arrays and objects, but not
`null` and not scalars. -/
def isObjLike : JsVal → Bool
  | .arr _ => true
  | .obj _ => true
  | _ => false

/-- Elements of an array value; empty for any other value. -/
def jsElems : JsVal → List JsVal
  | .arr xs => xs
  | _ => []

/-- Lower-case an ASCII string, character by character (model of
`String.prototype.toLowerCase` on the ASCII keys that occur here). -/
def lowerStr (s : String) : String := String.mk (s.data.map Char.toLower)

/-- Boolean test that the character list `pat` is an initial segment of `s`. -/
def startsL : List Char → List Char → Bool
  | [], _ => true
  | _ :: _, [] => false
  | p :: ps, c :: cs => (p == c) && startsL ps cs

/-- Boolean test that the character list `pat` occurs somewhere in `s`. -/
def containsLC (pat : List Char) : List Char → Bool
  | [] => startsL pat []
  | c :: cs => startsL pat (c :: cs) || containsLC pat cs

/-- Substring test on strings, via the underlying character lists. -/
def containsSub (s pat : String) : Bool := containsLC pat.data s.data

/-- Suffix test on strings, via the reversed character lists. -/
def endsSub (s pat : String) : Bool := startsL pat.data.reverse s.data.reverse

/-- Model of the regular-expression test `/products?$/i` used by the
direct-products strategy of `normalizeProducts` (sanmar.js line 204):
the key ends, case-insensitively, in `product` or `products`. -/
def keyTestProducts (k : String) : Bool :=
  endsSub (lowerStr k) "product" || endsSub (lowerStr k) "products"

/-- Model of the regular-expression test `/product|item/i` used by the
keyed-bucket strategy of `normalizeProducts` (sanmar.js lines 213-214):
the key contains, case-insensitively, `product` or `item`. -/
def keyTestPI (k : String) : Bool :=
  containsSub (lowerStr k) "product" || containsSub (lowerStr k) "item"

/-- Numeric value of a decimal digit character. -/
def digitsVal (cs : List Char) : ℕ := cs.foldl (fun a c => a * 10 + (c.toNat - 48)) 0

/-- Hexadecimal digit value, `none` for a non-hex character. -/
def hexVal (c : Char) : Option ℕ :=
  if c.isDigit then some (c.toNat - 48)
  else if ('a' ≤ c && c ≤ 'f') then some (c.toNat - 87)
  else if ('A' ≤ c && c ≤ 'F') then some (c.toNat - 55)
  else none

/-- Binary digit value. -/
def binVal (c : Char) : Option ℕ :=
  if (c == '0' || c == '1') then some (c.toNat - 48) else none

/-- Octal digit value. -/
def octVal (c : Char) : Option ℕ :=
  if ('0' ≤ c && c ≤ '7') then some (c.toNat - 48) else none

/-- Value of a radix-prefixed numeric literal (`0x…`, `0b…`, `0o…`), `none`
when a character is not a digit of the radix or there are no digits. -/
def parseRadix (r : ℕ) (digitOf : Char → Option ℕ) (cs : List Char) : Option ℚ :=
  if cs ≠ [] ∧ cs.all (fun c => (digitOf c).isSome) then
    some ((cs.foldl (fun a c => a * r + ((digitOf c).getD 0)) 0 : ℕ) : ℚ)
  else none

/-- White-space trim of both ends of a string, as a character list. -/
def jsTrim (s : String) : List Char :=
  ((s.data.dropWhile Char.isWhitespace).reverse.dropWhile Char.isWhitespace).reverse

/-- Rational value of a signed decimal mantissa scaled by a signed power of
ten: the value `±m · 10^sh`. -/
def decToRat (neg : Bool) (m : ℕ) (sh : ℤ) : ℚ :=
  let n : ℤ := if neg then -(m : ℤ) else (m : ℤ)
  if 0 ≤ sh then Rat.divInt (n * ((10 ^ sh.toNat : ℕ) : ℤ)) 1
  else Rat.divInt n ((10 ^ (-sh).toNat : ℕ) : ℤ)

/-- Optional exponent part of a decimal literal, after the `e`/`E` marker. -/
def parseExpDigits (cs : List Char) : Option ℤ :=
  match cs with
  | [] => none
  | c :: rest =>
    let sd : ℤ × List Char :=
      if c == '+' then (1, rest) else if c == '-' then (-1, rest) else (1, c :: rest)
    if sd.snd ≠ [] ∧ sd.snd.all Char.isDigit then some (sd.fst * digitsVal sd.snd) else none

/-- Exponent part of a decimal literal: empty means exponent `0`; anything
else must be `e`/`E` followed by an optionally signed digit string. -/
def parseExpPart (cs : List Char) : Option ℤ :=
  match cs with
  | [] => some 0
  | 'e' :: rest => parseExpDigits rest
  | 'E' :: rest => parseExpDigits rest
  | _ => none

/-- Unsigned decimal literal with optional fraction and exponent
(`12`, `12.50`, `.5`, `5.`, `1e3`, …): its digit-string value together with
the power-of-ten shift (exponent minus the number of fraction digits);
`none` when malformed. -/
def parseDecCore (cs : List Char) : Option (ℕ × ℤ) :=
  let ip := cs.takeWhile Char.isDigit
  let r1 := cs.dropWhile Char.isDigit
  match r1 with
  | '.' :: rest =>
    let fp := rest.takeWhile Char.isDigit
    let r2 := rest.dropWhile Char.isDigit
    if ip = [] ∧ fp = [] then none
    else (parseExpPart r2).map (fun e => (digitsVal (ip ++ fp), e - fp.length))
  | _ =>
    if ip = [] then none
    else (parseExpPart r1).map (fun e => (digitsVal ip, e))

/-- Model of JavaScript `Number(string)` restricted to finite results:
`some q` when the string converts to the finite number `q`, `none` when it
converts to `NaN` or to an infinity.  Follows `StringNumericLiteral`:
surrounding white space is trimmed, the empty string is `0`, radix-prefixed
literals have no sign, `Infinity` is accepted (but non-finite). -/
def strToNumber (s : String) : Option ℚ :=
  match jsTrim s with
  | [] => some 0
  | '0' :: 'x' :: rest => parseRadix 16 hexVal rest
  | '0' :: 'X' :: rest => parseRadix 16 hexVal rest
  | '0' :: 'b' :: rest => parseRadix 2 binVal rest
  | '0' :: 'B' :: rest => parseRadix 2 binVal rest
  | '0' :: 'o' :: rest => parseRadix 8 octVal rest
  | '0' :: 'O' :: rest => parseRadix 8 octVal rest
  | cs =>
    let sb : Bool × List Char :=
      match cs with
      | '+' :: rest => (false, rest)
      | '-' :: rest => (true, rest)
      | _ => (false, cs)
    if sb.snd = "Infinity".data then none
    else (parseDecCore sb.snd).map (fun me => decToRat sb.fst me.fst me.snd)

/-- Model of JavaScript `Number(v)` restricted to finite results, for a
defined value `v`: `null` is `0`, booleans are `0`/`1`, strings go through
the string grammar, a one-element array converts like its element written
out (`[x].toString()`), except booleans whose text form is not numeric, the
empty array is `0`, and every other array or plain object is `NaN`. -/
def toNumV : JsVal → Option ℚ
  | .vNull => some 0
  | .vBool b => some (if b then 1 else 0)
  | .vNum q => some q
  | .vNaN => none
  | .vStr s => strToNumber s
  | .arr [] => some 0
  | .arr [.vBool _] => none
  | .arr [x] => toNumV x
  | .arr _ => none
  | .obj _ => none

/-- Embedding of `nnum` (sanmar.js line 272):
`const n = Number(v); return Number.isFinite(n) ? n : null;`, taking
`none` for an `undefined` argument (an absent property). -/
def nnum : Option JsVal → Option ℚ
  | none => none
  | some v => toNumV v

/-- Decimal digit string of the fractional part `r / d`, with fuel bounding
the number of emitted digits. -/
def ratFracDigits (fuel : ℕ) (r d : ℕ) : String :=
  match fuel with
  | 0 => ""
  | fuel + 1 =>
    let q := r * 10 / d
    let r2 := r * 10 % d
    (Nat.digitChar q).toString ++ (if r2 = 0 then "" else ratFracDigits fuel r2 d)

/-- Decimal rendering of a rational, modelling JavaScript number-to-string
conversion for the terminating decimals that arise here. -/
def ratToDecString (q : ℚ) : String :=
  let sign := if q < 0 then "-" else ""
  let n := q.num.natAbs
  let d := q.den
  sign ++ toString (n / d) ++ (if n % d = 0 then "" else "." ++ ratFracDigits 40 (n % d) d)

mutual
/-- Model of JavaScript `String(v)`: identity on strings, decimal text for
numbers, `null`/`true`/`false`/`NaN` spelled out, arrays joined by commas
(with `null` elements rendered empty), `[object Object]` for objects. -/
def jsToString : JsVal → String
  | .vNull => "null"
  | .vBool b => if b then "true" else "false"
  | .vNum q => ratToDecString q
  | .vNaN => "NaN"
  | .vStr s => s
  | .arr xs => jsJoin xs
  | .obj _ => "[object Object]"
/-- Comma join of array elements for `Array.prototype.toString`; a `null`
element contributes the empty string. -/
def jsJoin : List JsVal → String
  | [] => ""
  | x :: xs =>
    (match x with
     | .vNull => ""
     | v => jsToString v) ++
    (match xs with
     | [] => ""
     | _ => "," ++ jsJoin xs)
end

mutual
/-- Embedding of `walk` (sanmar.js lines 177-181) as the pre-order list of
`(key, node)` visits: the visitor is called on the node itself first; the
elements of an array are visited under the array's own key; the values of
an object are visited under their own keys. -/
def walk : JsVal → String → List (String × JsVal)
  | .arr xs, key => (key, .arr xs) :: walkElems xs key
  | .obj fs, key => (key, .obj fs) :: walkFields fs
  | v, key => [(key, v)]
/-- Visits contributed by the elements of an array, all under the key the
array itself was reached by. -/
def walkElems : List JsVal → String → List (String × JsVal)
  | [], _ => []
  | x :: xs, key => walk x key ++ walkElems xs key
/-- Visits contributed by the fields of an object, each under its own key. -/
def walkFields : List (String × JsVal) → List (String × JsVal)
  | [] => []
  | kv :: fs => walk kv.snd kv.fst ++ walkFields fs
end

/-- Embedding of `isProductish` (sanmar.js lines 259-270): a non-array
object one of whose lower-cased keys is `sku`, `partnumber`, `stylenumber`,
`productname`, `brand` or `brandname`. -/
def isProductish : JsVal → Bool
  | .obj fs => fs.any (fun kv =>
      let lk := lowerStr kv.fst
      lk == "sku" || lk == "partnumber" || lk == "stylenumber" ||
      lk == "productname" || lk == "brand" || lk == "brandname")
  | _ => false

/-- JavaScript `a || b` on an optional left operand: the left value when it
is defined and truthy, otherwise the right operand. -/
def jsOr (a b : Option JsVal) : Option JsVal :=
  match a with
  | some v => if truthy v then some v else b
  | none => b

/-- Rendering used for the alias-chain fields wrapped as
`x ? String(x) : ''` in `mapProduct`. -/
def strOrEmpty : Option JsVal → String
  | some v => if truthy v then jsToString v else ""
  | none => ""

/-- Rendering used for `String(sku ?? '')` in `mapProduct`: `undefined` and
`null` become the empty string, anything else goes through `String(v)`. -/
def skuString : Option JsVal → String
  | none => ""
  | some .vNull => ""
  | some v => jsToString v

/-- Value of the image fields wrapped as `x || ''` in `mapProduct`. -/
def valOrEmptyStr : Option JsVal → JsVal
  | some v => if truthy v then v else .vStr ""
  | none => .vStr ""

/-- Embedding of `pickImage` (sanmar.js line 273): the first field whose
key contains `image` (case-insensitively) and whose value is a string
beginning with `http:` or `https:` (case-insensitively). -/
def pickImage : JsVal → Option JsVal
  | .obj fs => (fs.find? (fun kv =>
      containsSub (lowerStr kv.fst) "image" &&
      (match kv.snd with
       | .vStr s => startsL "http:".data (lowerStr s).data || startsL "https:".data (lowerStr s).data
       | _ => false))).map Prod.snd
  | _ => none

/-- Canonical product record produced by `mapProduct` (sanmar.js lines
234-257).  All fields are strings except the numeric price and the two
image fields, which JavaScript copies without string coercion. -/
structure Canon where
  sku : String
  brandName : String
  styleName : String
  colorName : String
  sizeName : String
  title : String
  customerPrice : ℚ
  colorFrontImage : JsVal
  colorBackImage : JsVal
  source : String

/-- Embedding of `mapProduct` (sanmar.js lines 234-257): per-field alias
chains under JavaScript `||`, the `??`-chained `nnum` price, and the image
fallback scan. -/
def mapProduct (p : JsVal) : Canon :=
  let g := getField p
  let sku := jsOr (g "SKU") (jsOr (g "Sku") (jsOr (g "PartNumber") (jsOr (g "PartNo")
    (jsOr (g "StyleNumber") (jsOr (g "StyleNo") (jsOr (g "ItemNumber")
    (jsOr (g "ItemNo") (jsOr (g "Id") (g "ID")))))))))
  let brand := jsOr (g "Brand") (jsOr (g "BrandName") (jsOr (g "Mill") (g "MillName")))
  let style := jsOr (g "Style") (jsOr (g "StyleName") (jsOr (g "ProductName")
    (jsOr (g "Name") (jsOr (g "DescriptionShort") (g "Description")))))
  let color := jsOr (g "Color") (jsOr (g "ColorName") (g "ColorDesc"))
  let size := jsOr (g "Size") (g "SizeName")
  let title := jsOr (g "Description") (jsOr (g "ProductTitle") (jsOr (g "ProductName")
    (jsOr (g "DescriptionLong") style)))
  let price := ((nnum (g "Price")).or ((nnum (g "CustomerPrice")).or
    ((nnum (g "SalePrice")).or (nnum (g "Cost"))))).getD 0
  let imgFront := jsOr (g "ImageFrontURL") (jsOr (g "ImageURL") (jsOr (g "Image") (pickImage p)))
  let imgBack := jsOr (g "ImageBackURL") (g "BackImageURL")
  { sku := skuString sku
    brandName := strOrEmpty brand
    styleName := strOrEmpty style
    colorName := strOrEmpty color
    sizeName := strOrEmpty size
    title := strOrEmpty title
    customerPrice := price
    colorFrontImage := valOrEmptyStr imgFront
    colorBackImage := valOrEmptyStr imgBack
    source := "sanmar" }

/-- Coercion of a `Product` field to a candidate result set, as in
sanmar.js line 205: an array is taken as is (and must be non-empty), a
truthy non-array is wrapped as a singleton, anything else yields nothing. -/
def productArr (node : JsVal) : Option (List JsVal) :=
  match getField node "Product" with
  | some (.arr xs) => if xs.length == 0 then none else some xs
  | some v => if truthy v then some [v] else none
  | none => none

/-- One visitor step of the direct-products strategy (sanmar.js lines
202-208): skip the root key, and on a key matching `/products?$/i` whose
node is object-like, replace the accumulator by the coerced `Product`
field when that is non-empty. -/
def directStep (acc : Option (List JsVal)) (kn : String × JsVal) : Option (List JsVal) :=
  if kn.fst == "" then acc
  else if keyTestProducts kn.fst && isObjLike kn.snd then
    match productArr kn.snd with
    | some xs => some xs
    | none => acc
  else acc

/-- Direct-products strategy: the value left in the `directProducts`
variable after the walk (the last matching assignment wins). -/
def directProducts (body : JsVal) : Option (List JsVal) :=
  (walk body "").foldl directStep none

/-- Keyed-bucket strategy (sanmar.js lines 212-215): along the walk,
arrays under a key matching `/product|item/i` contribute their elements,
and non-array objects under such a key contribute themselves. -/
def strat2buckets (body : JsVal) : List JsVal :=
  (walk body "").flatMap (fun kn =>
    match kn.snd with
    | .arr xs => if keyTestPI kn.fst then xs else []
    | .obj fs => if keyTestPI kn.fst then [.obj fs] else []
    | _ => [])

/-- Shape-sniffing strategy (sanmar.js lines 218-225): along the walk,
every array contributes the elements that satisfy `isProductish`. -/
def sniffBuckets (body : JsVal) : List JsVal :=
  (walk body "").flatMap (fun kn =>
    match kn.snd with
    | .arr xs => xs.filter isProductish
    | _ => [])

/-- De-duplication key of `normalizeProducts` (sanmar.js line 228):
the single concatenated template string `sku + "|" + sizeName`. -/
def ckey (x : Canon) : String := x.sku ++ "|" ++ x.sizeName

/-- Embedding of the callback traversal of `Array.prototype.filter` with an
`(element, index, array)` callback, specialised to the de-duplication
predicate `arr.findIndex(y => key(y) === key(x)) === i` of sanmar.js lines
227-231: `orig` is the whole mapped array the closure captures, `i` the
index of the first element of the remaining list. -/
def dedupGo (orig : List Canon) : ℕ → List Canon → List Canon
  | _, [] => []
  | i, x :: xs =>
    if orig.findIdx (fun y => ckey y == ckey x) == i
    then x :: dedupGo orig (i + 1) xs
    else dedupGo orig (i + 1) xs

/-- Deduplicator of `normalizeProducts` (sanmar.js lines 227-231): keep the
elements whose index equals the first index holding the same key. -/
def dedupJs (l : List Canon) : List Canon := dedupGo l 0 l

/-- Embedding of `normalizeProducts` (sanmar.js lines 194-232): an array
body is mapped directly; otherwise the direct-products strategy wins when
it fires; otherwise the keyed-bucket strategy fills the buckets, the
shape-sniffing strategy being consulted only when they stay empty, and the
mapped buckets are de-duplicated. -/
def normalizeProducts (body : JsVal) : List Canon :=
  if isArrB body then (jsElems body).map mapProduct
  else
    match directProducts body with
    | some xs => xs.map mapProduct
    | none =>
      let bs := strat2buckets body
      let bs2 := if bs.isEmpty then sniffBuckets body else bs
      dedupJs (bs2.map mapProduct)

/-- JavaScript `a || d` with a defined default: the left value when defined
and truthy, otherwise the default. -/
def jsOrV (a : Option JsVal) (d : JsVal) : JsVal :=
  match a with
  | some v => if truthy v then v else d
  | none => d

/-- Truthiness of an optional value, with `undefined` falsy. -/
def truthyO : Option JsVal → Bool
  | some v => truthy v
  | none => false

/-- Embedding of the unified cross-vendor `normalizeProduct`: each output
field is an `||`-chain over the two vendors' spellings with a final
default, and `provider` falls back to `"sns"` or `"sanmar"` according to
the truthiness of `customerPrice`. -/
def normalizeProduct (p : JsVal) : JsVal :=
  let g := getField p
  .obj [
    ("brand", jsOrV (g "brand") (jsOrV (g "brandName") (.vStr ""))),
    ("style", jsOrV (g "style") (jsOrV (g "styleName") (.vStr ""))),
    ("color", jsOrV (g "color") (jsOrV (g "colorName") (.vStr ""))),
    ("size", jsOrV (g "size") (jsOrV (g "sizeName") (.vStr ""))),
    ("price", jsOrV (g "price") (jsOrV (g "customerPrice") (jsOrV (g "retailPrice") (.vNum 0)))),
    ("imageFront", jsOrV (g "imageFront") (jsOrV (g "colorFrontImage") (.vStr ""))),
    ("imageBack", jsOrV (g "imageBack") (jsOrV (g "colorBackImage") (.vStr ""))),
    ("sku", jsOrV (g "sku") (jsOrV (g "productId") (.vStr ""))),
    ("provider", jsOrV (g "provider")
      (if truthyO (g "customerPrice") then .vStr "sns" else .vStr "sanmar"))
  ]

/-- Membership of a key in a seen-list of keys. -/
def seenHas (seen : List String) (k : String) : Bool :=
  match seen with
  | [] => false
  | s :: rest => (k == s) || seenHas rest k

/-- Specification-side deduplicator: retain the first occurrence of each
distinct concatenated key, preserving relative order. -/
def firstOccBy (l : List Canon) (seen : List String) : List Canon :=
  match l with
  | [] => []
  | x :: xs => if seenHas seen (ckey x) then firstOccBy xs seen
               else x :: firstOccBy xs (ckey x :: seen)

/-- Membership of a `(sku, sizeName)` pair in a seen-list of pairs, with
exact string equality on each component. -/
def seenHasPair (seen : List (String × String)) (k : String × String) : Bool :=
  match seen with
  | [] => false
  | s :: rest => (k.fst == s.fst && k.snd == s.snd) || seenHasPair rest k

/-- Specification-side deduplicator following the words of the claim:
retain the first occurrence of each distinct `(sku, sizeName)` pair, with
equality taken on the two string fields separately. -/
def firstOccByPair (l : List Canon) (seen : List (String × String)) : List Canon :=
  match l with
  | [] => []
  | x :: xs => if seenHasPair seen (x.sku, x.sizeName) then firstOccByPair xs seen
               else x :: firstOccByPair xs ((x.sku, x.sizeName) :: seen)

/-- Price candidates of the field mapper, in the order of sanmar.js line
241: `Price`, `CustomerPrice`, `SalePrice`, `Cost`. -/
def priceCandidates (p : JsVal) : List (Option JsVal) :=
  [getField p "Price", getField p "CustomerPrice", getField p "SalePrice", getField p "Cost"]

/-- Specification-side price: the value of the first candidate that parses
to a finite number, `0` only when every candidate fails. -/
def specPrice (p : JsVal) : ℚ := ((priceCandidates p).filterMap nnum).headD 0

/-- Concrete canonical record used in the deduplication scenarios. -/
def mkCanon (sku sizeName : String) (price : ℚ) : Canon :=
  ⟨sku, "", "", "", sizeName, "", price, .vStr "", .vStr "", "sanmar"⟩

/-- Raw record of end-to-end scenario A. -/
def rec2 : JsVal := .obj [("Style", .vStr "T100"), ("Price", .vStr "12.50"),
  ("SKU", .vStr "T100-BLK-L"), ("Size", .vStr "L")]

/-- Raw product record with an `SKU` and a `Size` field. -/
def r1 : JsVal := .obj [("SKU", .vStr "A"), ("Size", .vStr "L")]

/-- Response tree whose direct-products strategy fires with a duplicated
record: `{Products: {Product: [r1, r1]}}`. -/
def t1 : JsVal := .obj [("Products", .obj [("Product", .arr [r1, r1])])]

/-- Response tree feeding the keyed-bucket strategy twice with the same
record: `{Items: [r1, r1]}`. -/
def w1 : JsVal := .obj [("Items", .arr [r1, r1])]

/-- Product-ish mapping carrying a `brandName` key and a distinct SKU. -/
def m1 : JsVal := .obj [("brandName", .vStr "Alpha"), ("SKU", .vStr "SK1")]

/-- Product-ish mapping carrying a `brandName` key and a distinct SKU. -/
def m2 : JsVal := .obj [("brandName", .vStr "Beta"), ("SKU", .vStr "SK2")]

/-- Tree whose only candidate records sit in a sequence under the
non-product/item key `data`. -/
def t6 : JsVal := .obj [("data", .arr [m1, m2])]

/-- Raw product record with an `SKU` field only. -/
def rW : JsVal := .obj [("SKU", .vStr "W")]

/-- Tree with a bucket under the key `ItemList`, matching `/product|item/i`. -/
def w6 : JsVal := .obj [("ItemList", .arr [rW])]

/-- Array-shaped response body holding one bare string. -/
def body9 : JsVal := .arr [.vStr "hello"]

/-- Tree with no key matching the product/item patterns and no product-ish
mapping inside any sequence. -/
def w9 : JsVal := .obj [("alpha", .vStr "beta")]

/-- Record whose `customerPrice` field is present but `0` (falsy). -/
def r4 : JsVal := .obj [("customerPrice", .vNum 0)]

/-- Record with an explicit truthy `provider` field. -/
def pw1 : JsVal := .obj [("provider", .vStr "vendorX")]

/-- Record with a truthy `customerPrice` field and no `provider`. -/
def pw2 : JsVal := .obj [("customerPrice", .vNum 5)]

/-- Record with neither `provider` nor `customerPrice`. -/
def pw3 : JsVal := .obj []

/-- Record carrying vendor fields, used to exercise idempotence. -/
def w8 : JsVal := .obj [("brandName", .vStr "B"), ("customerPrice", .vNum 3)]

/-- Record carrying both the `SKU` and the `Sku` alias. -/
def p5ex : JsVal := .obj [("SKU", .vStr "A"), ("Sku", .vStr "B")]

/-- Canonical records with distinct `(sku, sizeName)` pairs but colliding
concatenated keys. -/
def cP1 : Canon := mkCanon "A|B" "C" 0

/-- Companion record to `cP1` with the colliding concatenation. -/
def cP2 : Canon := mkCanon "A" "B|C" 0

/-- Canonical records of end-to-end scenario B: identical `sku` and
`sizeName`, differing price. -/
def bB1 : Canon := mkCanon "X1" "M" 10

/-- Companion record to `bB1` with a different price. -/
def bB2 : Canon := mkCanon "X1" "M" 12

/-- Canonical record whose `sku` itself contains the separator bar. -/
def cQ1 : Canon := mkCanon "P|Q" "R" 1

/-- Canonical record whose `sizeName` absorbs part of `cQ1.sku`. -/
def cQ2 : Canon := mkCanon "P" "Q|R" 2

/- ------------------------------------------------------------------ -/
/- Deduplicator theory                                                 -/
/- ------------------------------------------------------------------ -/

theorem dedupGo_shift (l : List Canon) (orig : List Canon) (x : Canon) :
    ∀ i, dedupGo (x :: orig) (i + 1) l = (dedupGo orig i l).filter (fun y => !(ckey x == ckey y)) := by
  induction l with
  | nil => intro i; rfl
  | cons z zs ih =>
    intro i
    simp only [dedupGo, List.findIdx_cons]
    cases hx : ckey x == ckey z with
    | true =>
      have hz : (ckey z == ckey x) = true := by
        have := (beq_iff_eq).mp hx
        simp [this]
      simp only [cond_true, Nat.zero_eq, ih]
      have h0 : ((0 : ℕ) == i + 1) = false := by simp
      rw [h0]
      simp only [Bool.false_eq_true, if_false]
      by_cases hfi : (List.findIdx (fun y => ckey y == ckey z) orig == i) = true
      · simp only [hfi, if_pos, List.filter_cons]
        have : (!(ckey x == ckey z)) = false := by simp [hx]
        rw [this]
        simp
      · simp only [Bool.not_eq_true] at hfi
        rw [hfi]
        simp
    | false =>
      simp only [cond_false, ih]
      have hsucc : (List.findIdx (fun y => ckey y == ckey z) orig + 1 == i + 1)
          = (List.findIdx (fun y => ckey y == ckey z) orig == i) := by simp
      rw [hsucc]
      by_cases hfi : (List.findIdx (fun y => ckey y == ckey z) orig == i) = true
      · rw [hfi]
        simp only [if_pos, List.filter_cons]
        have : (!(ckey x == ckey z)) = true := by simp [hx]
        rw [this]
        simp
      · simp only [Bool.not_eq_true] at hfi
        rw [hfi]
        simp

theorem dedupJs_cons (x : Canon) (xs : List Canon) :
    dedupJs (x :: xs) = x :: (dedupJs xs).filter (fun y => !(ckey x == ckey y)) := by
  show dedupGo (x :: xs) 0 (x :: xs) = _
  simp only [dedupGo, List.findIdx_cons, beq_self_eq_true, cond_true]
  rw [if_pos trivial, dedupGo_shift xs xs x 0]
  rfl

theorem firstOccBy_not_seen (l : List Canon) :
    ∀ seen y, y ∈ firstOccBy l seen → seenHas seen (ckey y) = false := by
  induction l with
  | nil => intro seen y hy; simp [firstOccBy] at hy
  | cons x xs ih =>
    intro seen y hy
    by_cases hx : seenHas seen (ckey x) = true
    · rw [firstOccBy, if_pos hx] at hy
      exact ih seen y hy
    · simp only [Bool.not_eq_true] at hx
      rw [firstOccBy, if_neg (by simp [hx])] at hy
      rcases List.mem_cons.mp hy with h | h
      · rw [h]; exact hx
      · have := ih (ckey x :: seen) y h
        simp only [seenHas, Bool.or_eq_false_iff] at this
        exact this.2

theorem firstOccBy_seen_filter (l : List Canon) :
    ∀ seen, firstOccBy l seen = (firstOccBy l []).filter (fun y => !(seenHas seen (ckey y))) := by
  induction l with
  | nil => intro seen; rfl
  | cons x xs ih =>
    intro seen
    have hnil : firstOccBy (x :: xs) [] = x :: firstOccBy xs [ckey x] := by
      rw [firstOccBy, if_neg (by simp [seenHas])]
    by_cases hx : seenHas seen (ckey x) = true
    · rw [firstOccBy, if_pos hx, hnil, List.filter_cons]
      have hqx : (!(seenHas seen (ckey x))) = false := by simp [hx]
      rw [hqx]
      simp only [Bool.false_eq_true, if_false]
      rw [ih seen, ih [ckey x], List.filter_filter]
      apply List.filter_congr
      intro y _
      by_cases hcy : (ckey y == ckey x) = true
      · have : seenHas seen (ckey y) = true := by
          rw [(beq_iff_eq).mp hcy]; exact hx
        simp [this]
      · simp only [Bool.not_eq_true] at hcy
        simp [seenHas, hcy]
    · simp only [Bool.not_eq_true] at hx
      rw [firstOccBy, if_neg (by simp [hx]), hnil, List.filter_cons]
      have hqx : (!(seenHas seen (ckey x))) = true := by simp [hx]
      rw [hqx]
      simp only [if_pos]
      rw [ih (ckey x :: seen), ih [ckey x], List.filter_filter]
      congr 1
      apply List.filter_congr
      intro y _
      simp only [seenHas, Bool.or_eq_false_iff]
      by_cases hcy : (ckey y == ckey x) = true
      · simp [hcy]
      · simp only [Bool.not_eq_true] at hcy
        simp [hcy]

theorem dedupJs_eq_firstOccBy (l : List Canon) : dedupJs l = firstOccBy l [] := by
  induction l with
  | nil => rfl
  | cons x xs ih =>
    rw [dedupJs_cons, ih, firstOccBy, if_neg (by simp [seenHas]),
      firstOccBy_seen_filter xs [ckey x]]
    congr 1
    apply List.filter_congr
    intro y _
    simp only [seenHas, Bool.or_false]
    by_cases hcy : (ckey y == ckey x) = true
    · have : (ckey x == ckey y) = true := by
        rw [(beq_iff_eq).mp hcy]; simp
      simp [this, hcy]
    · simp only [Bool.not_eq_true] at hcy
      have : (ckey x == ckey y) = false :=
        beq_eq_false_iff_ne.mpr (fun h => (beq_eq_false_iff_ne.mp hcy) h.symm)
      simp [this, hcy]

theorem firstOccBy_pairwise_key (l : List Canon) :
    ∀ seen, (firstOccBy l seen).Pairwise (fun a b => ckey a ≠ ckey b) := by
  induction l with
  | nil => intro seen; simp [firstOccBy]
  | cons x xs ih =>
    intro seen
    by_cases hx : seenHas seen (ckey x) = true
    · rw [firstOccBy, if_pos hx]; exact ih seen
    · simp only [Bool.not_eq_true] at hx
      rw [firstOccBy, if_neg (by simp [hx])]
      refine List.pairwise_cons.mpr ⟨?_, ih (ckey x :: seen)⟩
      intro b hb
      have := firstOccBy_not_seen xs (ckey x :: seen) b hb
      simp only [seenHas, Bool.or_eq_false_iff] at this
      intro hkey
      have hb2 : (ckey b == ckey x) = true := by simp [hkey]
      rw [this.1] at hb2
      exact Bool.false_ne_true hb2

theorem dedupJs_pairwise_key (l : List Canon) :
    (dedupJs l).Pairwise (fun a b => ckey a ≠ ckey b) := by
  rw [dedupJs_eq_firstOccBy]; exact firstOccBy_pairwise_key l []

/- ------------------------------------------------------------------ -/
/- Unified-normalizer helpers                                          -/
/- ------------------------------------------------------------------ -/

theorem jsOrV_none (d : JsVal) : jsOrV none d = d := rfl

theorem jsOrV_cases (x : Option JsVal) (d : JsVal) :
    truthy (jsOrV x d) = true ∨ jsOrV x d = d := by
  cases x with
  | none => exact Or.inr rfl
  | some v =>
    by_cases h : truthy v = true
    · exact Or.inl (by simp [jsOrV, h])
    · simp only [Bool.not_eq_true] at h
      exact Or.inr (by simp [jsOrV, h])

theorem jsOrV_chain2 (x y : Option JsVal) (d : JsVal) :
    truthy (jsOrV x (jsOrV y d)) = true ∨ jsOrV x (jsOrV y d) = d := by
  rcases jsOrV_cases x (jsOrV y d) with h | h
  · exact Or.inl h
  · rw [h]; exact jsOrV_cases y d

theorem jsOrV_chain3 (x y z : Option JsVal) (d : JsVal) :
    truthy (jsOrV x (jsOrV y (jsOrV z d))) = true ∨ jsOrV x (jsOrV y (jsOrV z d)) = d := by
  rcases jsOrV_cases x (jsOrV y (jsOrV z d)) with h | h
  · exact Or.inl h
  · rw [h]; exact jsOrV_chain2 y z d

theorem jsOrV_some_or (b d : JsVal) (h : truthy b = true ∨ b = d) : jsOrV (some b) d = b := by
  rcases h with h | h
  · simp [jsOrV, h]
  · subst h
    by_cases hb : truthy b = true
    · simp [jsOrV, hb]
    · simp only [Bool.not_eq_true] at hb
      simp [jsOrV, hb]

theorem truthy_jsOrV_default (x : Option JsVal) (d : JsVal) (h : truthy d = true) :
    truthy (jsOrV x d) = true := by
  cases x with
  | none => exact h
  | some v =>
    by_cases hv : truthy v = true
    · simp [jsOrV, hv]
    · simp only [Bool.not_eq_true] at hv
      simp [jsOrV, hv, h]

/- ------------------------------------------------------------------ -/
/- Locator-strategy helpers                                            -/
/- ------------------------------------------------------------------ -/

theorem foldl_directStep_const (l : List (String × JsVal)) :
    ∀ acc, (∀ kn ∈ l, keyTestProducts kn.fst = false) → l.foldl directStep acc = acc := by
  induction l with
  | nil => intro acc _; rfl
  | cons kn l ih =>
    intro acc h
    have hkn : keyTestProducts kn.fst = false := h kn (List.mem_cons_self kn l)
    have hstep : directStep acc kn = acc := by
      by_cases hk : (kn.fst == "") = true
      · simp [directStep, hk]
      · simp only [Bool.not_eq_true] at hk
        simp [directStep, hk, hkn]
    rw [List.foldl_cons, hstep]
    exact ih acc (fun x hx => h x (List.mem_cons_of_mem kn hx))

theorem directProducts_eq_none (body : JsVal)
    (h : ∀ kn ∈ walk body "", keyTestProducts kn.fst = false) :
    directProducts body = none :=
  foldl_directStep_const (walk body "") none h

theorem strat2buckets_eq_nil (body : JsVal)
    (h : ∀ kn ∈ walk body "", keyTestPI kn.fst = false) :
    strat2buckets body = [] := by
  rw [strat2buckets, List.flatMap_eq_nil_iff]
  intro kn hkn
  have hk := h kn hkn
  rcases kn with ⟨k, n⟩
  cases n <;> simp_all

theorem sniffBuckets_eq_nil (body : JsVal)
    (h : ∀ kn ∈ walk body "", ∀ x ∈ jsElems kn.snd, isProductish x = false) :
    sniffBuckets body = [] := by
  rw [sniffBuckets, List.flatMap_eq_nil_iff]
  intro kn hkn
  have hk := h kn hkn
  rcases kn with ⟨k, n⟩
  cases n with
  | arr xs =>
    simp only [jsElems] at hk
    exact List.filter_eq_nil_iff.mpr (fun a ha => by simp [hk a ha])
  | vNull => rfl
  | vBool b => rfl
  | vNum q => rfl
  | vNaN => rfl
  | vStr s => rfl
  | obj fs => rfl

theorem normalizeProduct_fixed (b s c sz pr f bk sk pv : JsVal)
    (hb : truthy b = true ∨ b = .vStr "") (hs : truthy s = true ∨ s = .vStr "")
    (hc : truthy c = true ∨ c = .vStr "") (hsz : truthy sz = true ∨ sz = .vStr "")
    (hpr : truthy pr = true ∨ pr = .vNum 0) (hf : truthy f = true ∨ f = .vStr "")
    (hbk : truthy bk = true ∨ bk = .vStr "") (hsk : truthy sk = true ∨ sk = .vStr "")
    (hpv : truthy pv = true) :
    normalizeProduct (.obj [("brand", b), ("style", s), ("color", c), ("size", sz),
      ("price", pr), ("imageFront", f), ("imageBack", bk), ("sku", sk), ("provider", pv)])
    = .obj [("brand", b), ("style", s), ("color", c), ("size", sz), ("price", pr),
      ("imageFront", f), ("imageBack", bk), ("sku", sk), ("provider", pv)] := by
  simp only [normalizeProduct, getField, List.find?, truthyO, jsOrV_none]
  simp
  simp only [jsOrV_none]
  exact ⟨jsOrV_some_or b _ hb, jsOrV_some_or s _ hs, jsOrV_some_or c _ hc,
    jsOrV_some_or sz _ hsz, jsOrV_some_or pr _ hpr, jsOrV_some_or f _ hf,
    jsOrV_some_or bk _ hbk, jsOrV_some_or sk _ hsk, jsOrV_some_or pv _ (Or.inl hpv)⟩

/-- C2: mapping the raw record `{Style:"T100", Price:"12.50",
SKU:"T100-BLK-L", Size:"L"}` with the field mapper yields a canonical
record with `sku = "T100-BLK-L"`, `styleName = "T100"`, numeric price
`12.5` and `sizeName = "L"`. -/
theorem mapProduct_scenarioA :
    (mapProduct rec2).sku = "T100-BLK-L" ∧ (mapProduct rec2).styleName = "T100" ∧
    (mapProduct rec2).customerPrice = 12.5 ∧ (mapProduct rec2).sizeName = "L" := by
  refine ⟨rfl, rfl, ?_, rfl⟩
  rw [show (mapProduct rec2).customerPrice = Rat.divInt 1250 100 from by decide]
  rw [Rat.divInt_eq_div]
  norm_num

/-- C3: for every raw record, the mapped price equals the value of the
first candidate among `Price`, `CustomerPrice`, `SalePrice`, `Cost` whose
value parses to a finite number (the `nnum` conversion); unparseable or
non-finite candidates are skipped, and the price is `0` exactly when every
candidate fails. -/
theorem mapProduct_price_first_finite (p : JsVal) :
    (mapProduct p).customerPrice = specPrice p := by
  simp only [mapProduct, specPrice, priceCandidates]
  cases h1 : nnum (getField p "Price") <;> cases h2 : nnum (getField p "CustomerPrice") <;>
    cases h3 : nnum (getField p "SalePrice") <;> cases h4 : nnum (getField p "Cost") <;>
      simp [h1, h2, h3, h4, Option.or, List.filterMap_cons]

/-- C5: a raw record carrying both a non-empty `SKU` value `a` and a
non-empty `Sku` value `b` is mapped to the canonical sku `a` — the first
non-empty alias in the fixed order wins. -/
theorem mapProduct_sku_alias_priority (p : JsVal) (a b : String)
    (hA : getField p "SKU" = some (.vStr a)) (ha : a ≠ "")
    (hB : getField p "Sku" = some (.vStr b)) (hb : b ≠ "") :
    (mapProduct p).sku = a := by
  have hta : truthy (.vStr a) = true := by simp [truthy, ha]
  simp only [mapProduct, hA]
  simp [jsOr, hta, skuString, jsToString]

/-- Closed witness for C5 at the record `{SKU:"A", Sku:"B"}`. -/
theorem mapProduct_sku_alias_priority_witness : (mapProduct p5ex).sku = "A" :=
  mapProduct_sku_alias_priority p5ex "A" "B" rfl (by decide) rfl (by decide)

/-- C8: the unified normalizer is idempotent on canonical input — for any
record, normalizing the normalized output again returns it unchanged. -/
theorem normalizeProduct_idempotent (r : JsVal) (h : isObjB r = true) :
    normalizeProduct (normalizeProduct r) = normalizeProduct r :=
  normalizeProduct_fixed _ _ _ _ _ _ _ _ _
    (jsOrV_chain2 (getField r "brand") (getField r "brandName") (.vStr ""))
    (jsOrV_chain2 (getField r "style") (getField r "styleName") (.vStr ""))
    (jsOrV_chain2 (getField r "color") (getField r "colorName") (.vStr ""))
    (jsOrV_chain2 (getField r "size") (getField r "sizeName") (.vStr ""))
    (jsOrV_chain3 (getField r "price") (getField r "customerPrice")
      (getField r "retailPrice") (.vNum 0))
    (jsOrV_chain2 (getField r "imageFront") (getField r "colorFrontImage") (.vStr ""))
    (jsOrV_chain2 (getField r "imageBack") (getField r "colorBackImage") (.vStr ""))
    (jsOrV_chain2 (getField r "sku") (getField r "productId") (.vStr ""))
    (truthy_jsOrV_default _ _
      (by cases h2 : truthyO (getField r "customerPrice") <;> simp [h2, truthy]))

/-- Closed witness for C8 at a concrete vendor record. -/
theorem normalizeProduct_idempotent_witness :
    normalizeProduct (normalizeProduct w8) = normalizeProduct w8 :=
  normalizeProduct_idempotent w8 rfl

/-- C10: the deduplication step compares records by the single concatenated
string `sku + "|" + sizeName`, so two records with distinct
`(sku, sizeName)` pairs whose concatenations coincide are conflated and the
later record is dropped. -/
theorem dedupJs_concat_key_collision :
    ((cQ1.sku, cQ1.sizeName) ≠ (cQ2.sku, cQ2.sizeName))
    ∧ ckey cQ1 = ckey cQ2
    ∧ dedupJs [cQ1, cQ2] = [cQ1] :=
  ⟨by decide, rfl, rfl⟩

/-- C7 (amended): deduplication retains exactly the first occurrence of
each distinct concatenated key `sku + "|" + sizeName`, preserving relative
order; in particular, of two records with identical `sku` and `sizeName`
but differing price, only the first survives. -/
theorem dedupJs_first_occurrence_by_concat_key :
    (∀ l, dedupJs l = firstOccBy l []) ∧ dedupJs [bB1, bB2] = [bB1] :=
  ⟨dedupJs_eq_firstOccBy, rfl⟩

/-- Counterexample for C7 as stated: on records with distinct
`(sku, sizeName)` pairs but colliding concatenations, the code's
deduplication differs from first-occurrence filtering by pair equality. -/
theorem dedupJs_pair_spec_fails :
    ((cP1.sku, cP1.sizeName) ≠ (cP2.sku, cP2.sizeName))
    ∧ dedupJs [cP1, cP2] ≠ firstOccByPair [cP1, cP2] [] := by
  refine ⟨by decide, ?_⟩
  intro h
  rw [show dedupJs [cP1, cP2] = [cP1] from rfl,
    show firstOccByPair [cP1, cP2] [] = [cP1, cP2] from rfl] at h
  simp at h

/-- C1 (amended): whenever the response body is not an array and the
direct-products strategy finds nothing — i.e. the records come from the
keyed-bucket or shape-sniffing strategies, which feed the deduplication
filter — no two records of the output share the same `(sku, sizeName)`
pair. -/
theorem normalizeProducts_bucket_path_dedup_pairs (body : JsVal)
    (h1 : isArrB body = false) (h2 : directProducts body = none) :
    (normalizeProducts body).Pairwise
      (fun a b => ¬(a.sku = b.sku ∧ a.sizeName = b.sizeName)) := by
  have hrw : normalizeProducts body
      = dedupJs (((if (strat2buckets body).isEmpty then sniffBuckets body
          else strat2buckets body)).map mapProduct) := by
    simp [normalizeProducts, h1, h2]
  rw [hrw]
  exact (dedupJs_pairwise_key _).imp
    (fun hk hand => hk (by rw [ckey, ckey, hand.1, hand.2]))

/-- Closed witness for C1 at the bucket-path tree `{Items: [r1, r1]}`. -/
theorem normalizeProducts_bucket_path_dedup_pairs_witness :
    (normalizeProducts w1).Pairwise
      (fun a b => ¬(a.sku = b.sku ∧ a.sizeName = b.sizeName)) :=
  normalizeProducts_bucket_path_dedup_pairs w1 rfl rfl

/-- Counterexample for C1 as stated: the direct-products strategy returns
its records without deduplication, so the tree
`{Products: {Product: [r1, r1]}}` yields two identical records sharing one
`(sku, sizeName)` pair. -/
theorem normalizeProducts_direct_path_duplicate_pair :
    ¬ (normalizeProducts t1).Pairwise
        (fun a b => ¬(a.sku = b.sku ∧ a.sizeName = b.sizeName)) := by
  intro h
  rw [show normalizeProducts t1 = [mapProduct r1, mapProduct r1] from rfl] at h
  exact (List.pairwise_cons.mp h).1 (mapProduct r1) (List.mem_cons_self _ _) ⟨rfl, rfl⟩

/-- C4 (amended): the unified normalizer's `provider` equals the explicit
`provider` value when that value is truthy; otherwise it is `"sns"` when
the `customerPrice` field is present and truthy (non-zero), and `"sanmar"`
otherwise — in particular a present but falsy `customerPrice` (such as `0`)
yields `"sanmar"`. -/
theorem normalizeProduct_provider_resolution (p : JsVal) :
    (∀ v, getField p "provider" = some v → truthy v = true →
        getField (normalizeProduct p) "provider" = some v)
    ∧ (truthyO (getField p "provider") = false →
        truthyO (getField p "customerPrice") = true →
        getField (normalizeProduct p) "provider" = some (.vStr "sns"))
    ∧ (truthyO (getField p "provider") = false →
        truthyO (getField p "customerPrice") = false →
        getField (normalizeProduct p) "provider" = some (.vStr "sanmar")) := by
  have base : getField (normalizeProduct p) "provider"
      = some (jsOrV (getField p "provider")
          (if truthyO (getField p "customerPrice") then JsVal.vStr "sns"
           else JsVal.vStr "sanmar")) := rfl
  refine ⟨?_, ?_, ?_⟩
  · intro v hv htv
    rw [base, hv]
    simp [jsOrV, htv]
  · intro h1 h2
    rw [base]
    cases hgp : getField p "provider" with
    | none => simp [jsOrV, h2]
    | some v =>
      rw [hgp] at h1
      simp only [truthyO] at h1
      simp [jsOrV, h1, h2]
  · intro h1 h2
    rw [base]
    cases hgp : getField p "provider" with
    | none => simp [jsOrV, h2]
    | some v =>
      rw [hgp] at h1
      simp only [truthyO] at h1
      simp [jsOrV, h1, h2]

/-- Closed witness for C4, discharging the three branches at concrete
records. -/
theorem normalizeProduct_provider_resolution_witness :
    getField (normalizeProduct pw1) "provider" = some (.vStr "vendorX")
    ∧ getField (normalizeProduct pw2) "provider" = some (.vStr "sns")
    ∧ getField (normalizeProduct pw3) "provider" = some (.vStr "sanmar") :=
  ⟨(normalizeProduct_provider_resolution pw1).1 (.vStr "vendorX") rfl (by decide),
   (normalizeProduct_provider_resolution pw2).2.1 rfl (by decide),
   (normalizeProduct_provider_resolution pw3).2.2 rfl rfl⟩

/-- Counterexample for C4 as stated: the record `{customerPrice: 0}` has a
`customerPrice` field and no `provider`, yet the normalizer infers
`"sanmar"`, not `"sns"` — presence alone does not select `"sns"`. -/
theorem normalizeProduct_provider_zero_customerPrice :
    getField r4 "provider" = none
    ∧ getField r4 "customerPrice" = some (.vNum 0)
    ∧ getField (normalizeProduct r4) "provider" = some (.vStr "sanmar")
    ∧ getField (normalizeProduct r4) "provider" ≠ some (.vStr "sns") := by
  refine ⟨rfl, rfl, rfl, ?_⟩
  intro h
  rw [show getField (normalizeProduct r4) "provider" = some (.vStr "sanmar") from rfl] at h
  simp at h

/-- C6: the shape-sniffing strategy contributes records only when both the
direct-products strategy and the keyed-bucket strategy yield nothing: when
the direct strategy fires its records are returned as is, and when the
keyed-bucket strategy is non-empty the output is exactly its deduplicated
mapping; in particular the tree `{data: [m1, m2]}` — whose only candidate
records sit in a sequence under a non-product/item key, each mapping
containing a `brandName` key — yields exactly those mappings. -/
theorem normalizeProducts_sniff_only_on_empty :
    (∀ body xs, isArrB body = false → directProducts body = some xs →
        normalizeProducts body = xs.map mapProduct)
    ∧ (∀ body, isArrB body = false → directProducts body = none →
        strat2buckets body ≠ [] →
        normalizeProducts body = dedupJs ((strat2buckets body).map mapProduct))
    ∧ normalizeProducts t6 = [mapProduct m1, mapProduct m2] := by
  refine ⟨?_, ?_, rfl⟩
  · intro body xs h1 h2
    simp [normalizeProducts, h1, h2]
  · intro body h1 h2 h3
    have hne : (strat2buckets body).isEmpty = false := by
      cases hbs : (strat2buckets body).isEmpty
      · rfl
      · exact absurd (List.isEmpty_iff.mp hbs) h3
    simp [normalizeProducts, h1, h2, hne]

/-- Closed witness for C6, discharging both strategy-gating branches at
concrete trees. -/
theorem normalizeProducts_sniff_only_on_empty_witness :
    normalizeProducts t1 = [r1, r1].map mapProduct
    ∧ normalizeProducts w6 = dedupJs ((strat2buckets w6).map mapProduct) :=
  ⟨normalizeProducts_sniff_only_on_empty.1 t1 [r1, r1] rfl rfl,
   normalizeProducts_sniff_only_on_empty.2.1 w6 rfl rfl
     (by rw [show strat2buckets w6 = [rW, rW] from rfl]; exact List.cons_ne_nil _ _)⟩

/-- C9 (amended): for every non-array response body in which no key
matches the product/item patterns and no sequence holds a product-ish
mapping, `normalizeProducts` returns the empty list (the embedding is a
total function, so no error is signalled). -/
theorem normalizeProducts_empty_on_no_match (body : JsVal) (h0 : isArrB body = false)
    (h1 : ∀ kn ∈ walk body "", keyTestPI kn.fst = false ∧ keyTestProducts kn.fst = false)
    (h2 : ∀ kn ∈ walk body "", ∀ x ∈ jsElems kn.snd, isProductish x = false) :
    normalizeProducts body = [] := by
  have hd : directProducts body = none :=
    directProducts_eq_none body (fun kn hkn => (h1 kn hkn).2)
  have hs2 : strat2buckets body = [] :=
    strat2buckets_eq_nil body (fun kn hkn => (h1 kn hkn).1)
  have hsn : sniffBuckets body = [] := sniffBuckets_eq_nil body h2
  simp [normalizeProducts, h0, hd, hs2, hsn, dedupJs, dedupGo]

/-- Closed witness for C9 at the tree `{alpha: "beta"}`. -/
theorem normalizeProducts_empty_on_no_match_witness : normalizeProducts w9 = [] :=
  normalizeProducts_empty_on_no_match w9 rfl (by decide) (by decide)

/-- Counterexample for C9 as stated: the array body `["hello"]` contains no
key matching the product/item patterns and no product-ish mapping in any
sequence, yet `normalizeProducts` returns a non-empty list (the array
early-return maps every element without any record check). -/
theorem normalizeProducts_array_body_not_empty :
    (∀ kn ∈ walk body9 "", keyTestPI kn.fst = false ∧ keyTestProducts kn.fst = false)
    ∧ (∀ kn ∈ walk body9 "", ∀ x ∈ jsElems kn.snd, isProductish x = false)
    ∧ normalizeProducts body9 ≠ [] := by
  refine ⟨by decide, by decide, ?_⟩
  rw [show normalizeProducts body9 = [mapProduct (.vStr "hello")] from rfl]
  exact List.cons_ne_nil _ _
